import Mathlib

/-!
Verification of `src/mattport/utils/stats_tracker.py` (AutoRecon).

Shallow embedding conventions:
* Python floats are modelled as rationals (`ℚ`), iteration steps as integers.
* `self.stats_dict` (a Python `dict`, insertion ordered) is an association
  list updated in place; `dict.get` walks it.
* A Python value that is sometimes a bare float and sometimes the
  `{"buffer": ..., "avg": ...}` dict is the sum type `StatVal`.
* Python exceptions (`ZeroDivisionError`, `TypeError`, `IndexError`) are the
  error side of `Except`.
* The decorators `check_stats_enabled` / `check_main_thread` /
  `check_print_stats_step` come from `mattport.utils.decorators`, which is not
  part of this repository's sources; they gate whether a method body runs at
  all.  The definitions below model the method bodies, i.e. a call that the
  gates let through.
-/

/- Core marks the rational field operations irreducible, which blocks
`decide`/`rfl` evaluation of concrete states; restore evaluation for this
development. -/
attribute [local semireducible] Rat.sub Rat.add Rat.mul Rat.inv

deriving instance DecidableEq for Except

/-- The `Stats` enum of `stats_tracker.py` (lines 40-52); the comment after
each constructor is the enum member's display-label value. -/
inductive Stats where
  | iterLoadTime    -- ITER_LOAD_TIME = "Data Load (ms)"
  | iterTrainTime   -- ITER_TRAIN_TIME = "Train Iter (ms)"
  | totalTrainTime  -- TOTAL_TRAIN_TIME = "Train Total (time)"
  | raysPerSec      -- RAYS_PER_SEC = "Rays Per Sec (1/s)"
  | currTestPsnr    -- CURR_TEST_PSNR = "Test PSNR"
  | eta             -- ETA = "ETA (time)"
  deriving DecidableEq

/-- A value stored in `self.stats_dict`: either a bare float (written by
`update_value`, line 85, and by the no-step branch of `update_time`, lines
121 and 126) or the `{"buffer": [...], "avg": ...}` dict written by the
step-present branch of `update_time` (line 118). -/
inductive StatVal where
  | scalar (v : ℚ)
  | averaged (buffer : List ℚ) (avg : ℚ)
  deriving DecidableEq

/-- The Python exceptions the modelled code can raise. -/
inductive TrackerError where
  | zeroDivision   -- ZeroDivisionError from `batch_size / val` (line 107)
  | typeError      -- TypeError: int - None (line 125), subscripting a float
                   -- (lines 112/126), or `None > 0` (line 144)
  | indexError     -- IndexError from `[].pop(0)` (line 115)
  deriving DecidableEq

/-- The state of a `StatsTracker` instance (constructor lines 59-70) together
with the two configuration values the methods read
(`config.logging.stats_tracker.max_history` and
`config.graph.max_num_iterations`).  `step` is an `Option ℤ` because
`update_time` assigns its `step` argument, which defaults to `None`, straight
to `self.step` (line 102); `__init__` sets it to `some 0`. -/
structure StatsTracker where
  maxHistory : ℕ
  maxNumIterations : ℤ
  statsToTrack : List Stats
  step : Option ℤ
  statsDict : List (Stats × StatVal)
  newKey : Bool
  deriving DecidableEq

/-- `self.stats_dict.get(name)` / `name in self.stats_dict` on the
insertion-ordered association list. -/
def dictGet (d : List (Stats × StatVal)) (k : Stats) : Option StatVal :=
  match d with
  | [] => none
  | (k₁, v) :: rest => if k₁ = k then some v else dictGet rest k

/-- `self.stats_dict[name] = v`: overwrite in place if the key is present
(keeping its position), otherwise append (Python dict insertion order). -/
def dictInsert (d : List (Stats × StatVal)) (k : Stats) (v : StatVal) :
    List (Stats × StatVal) :=
  match d with
  | [] => [(k, v)]
  | (k₁, v₁) :: rest =>
      if k₁ = k then (k, v) :: rest else (k₁, v₁) :: dictInsert rest k v

/-- `StatsTracker.update_value` (lines 74-85): no-op for untracked keys;
otherwise set the step, update the new-key flag
(`self.new_key = not name in self.stats_dict or self.new_key`, line 84) and
store the value as a bare scalar. -/
def update_value (t : StatsTracker) (name : Stats) (value : ℚ) (step : ℤ) :
    StatsTracker :=
  if name ∈ t.statsToTrack then
    { t with
      step := some step
      newKey := (dictGet t.statsDict name).isNone || t.newKey
      statsDict := dictInsert t.statsDict name (.scalar value) }
  else t

/-- `if len(curr_buffer) >= self.max_history: curr_buffer.pop(0)`
(lines 114-115).  `list.pop(0)` raises `IndexError` on an empty list. -/
def popIfFull (maxHistory : ℕ) (buf : List ℚ) :
    Except TrackerError (List ℚ) :=
  if maxHistory ≤ buf.length then
    match buf with
    | [] => .error .indexError
    | _ :: rest => .ok rest
  else .ok buf

/-- The ETA side effect of `update_time` (lines 123-126): if the updated key
is `ITER_TRAIN_TIME` and `ETA` is tracked, write
`(max_num_iterations - step) * stats_dict[ITER_TRAIN_TIME]["avg"]` into the
`ETA` slot.  `max_num_iterations - step` is a `TypeError` when `step` is
`None`, and subscripting with `["avg"]` is a `TypeError` when the entry is a
bare float. -/
def updateTimeEta (t : StatsTracker) (name : Stats) (step : Option ℤ) :
    Except TrackerError StatsTracker :=
  if name = Stats.iterTrainTime ∧ Stats.eta ∈ t.statsToTrack then
    match step with
    | none => .error .typeError
    | some s =>
        match dictGet t.statsDict name with
        | some (.averaged _ avg) =>
            .ok { t with
                  statsDict := dictInsert t.statsDict Stats.eta
                    (.scalar ((t.maxNumIterations - s) * avg)) }
        | _ => .error .typeError
  else .ok t

/-- The storage step of `update_time` (lines 109-126), after the derived
value `val` has been computed.  With `step` present (lines 109-118): fetch
the current history (default `{"buffer": [], "avg": 0}`), which is a
`TypeError` to subscript if the slot holds a bare float; evict the oldest
buffer entry when at capacity; append `val`; recompute the average as
`sum(buffer) / len(buffer)`.  With `step` absent (lines 119-121): store `val`
as a bare scalar.  Then apply the ETA side effect. -/
def updateTimeStore (t : StatsTracker) (name : Stats) (val : ℚ)
    (step : Option ℤ) : Except TrackerError StatsTracker :=
  match step with
  | some _ =>
      match (dictGet t.statsDict name).getD (.averaged [] 0) with
      | .scalar _ => .error .typeError
      | .averaged buf _ =>
          (popIfFull t.maxHistory buf).bind fun buf₁ =>
            let buf₂ := buf₁ ++ [val]
            let avg := buf₂.sum / (buf₂.length : ℚ)
            updateTimeEta
              { t with statsDict := dictInsert t.statsDict name (.averaged buf₂ avg) }
              name step
  | none =>
      updateTimeEta
        { t with statsDict := dictInsert t.statsDict name (.scalar val) }
        name step

/-- `StatsTracker.update_time` (lines 87-126): no-op for untracked keys;
otherwise assign `self.step = step` (even when `step` is `None`), update the
new-key flag, derive `val = end_time - start_time`, replace it with
`batch_size / val` when `batch_size` is truthy (unguarded division), and
store via `updateTimeStore`. -/
def update_time (t : StatsTracker) (name : Stats) (startTime endTime : ℚ)
    (step : Option ℤ) (batchSize : Option ℚ) :
    Except TrackerError StatsTracker :=
  if name ∈ t.statsToTrack then
    let t₁ : StatsTracker :=
      { t with
        step := step
        newKey := (dictGet t.statsDict name).isNone || t.newKey }
    let rawVal := endTime - startTime
    match batchSize with
    | some b =>
        if b ≠ 0 then
          if rawVal = 0 then .error .zeroDivision
          else updateTimeStore t₁ name (b / rawVal) step
        else updateTimeStore t₁ name rawVal step
    | none => updateTimeStore t₁ name rawVal step
  else .ok t

/-- The unit class encoded in each enum member's label, used by
`handle_stats` (lines 151-157): `"(time)" in k.value`, `"(ms)" in k.value`,
or neither. -/
inductive UnitClass where
  | time | ms | plain
  deriving DecidableEq

/-- Unit class of each label (see the `Stats` enum values). -/
def statUnit : Stats → UnitClass
  | .iterLoadTime => .ms      -- "Data Load (ms)"
  | .iterTrainTime => .ms     -- "Train Iter (ms)"
  | .totalTrainTime => .time  -- "Train Total (time)"
  | .raysPerSec => .plain     -- "Rays Per Sec (1/s)"
  | .currTestPsnr => .plain   -- "Test PSNR"
  | .eta => .time             -- "ETA (time)"

/-- The numeric value `handle_stats` renders for one entry (lines 147-157):
an averaged entry contributes its cached `avg`; millisecond-class labels are
scaled by 1000 (`v * 1e3`); the final string formatting itself is terminal
output and is not modelled. -/
def renderedVal (k : Stats) (v : StatVal) : ℚ :=
  let x := match v with
    | .scalar a => a
    | .averaged _ avg => avg
  match statUnit k with
  | .ms => x * 1000
  | _ => x

/-- `StatsTracker.handle_stats` (lines 142-165): guarded by
`if self.step > 0`, which raises `TypeError` when `self.step` is `None`.
When the guard passes it prints one data row (modelled as the step, the
fraction done and the rendered entries in insertion order); when the step is
not positive it prints nothing (`none`). -/
def handle_stats (t : StatsTracker) (fractionDone : ℚ) :
    Except TrackerError (Option (ℤ × ℚ × List (Stats × ℚ))) :=
  match t.step with
  | none => .error .typeError
  | some s =>
      if 0 < s then
        .ok (some (s, fractionDone,
          t.statsDict.map fun p => (p.1, renderedVal p.1 p.2)))
      else .ok none

/-- `StatsTracker.print_stats` (lines 168-179): the call to `handle_header`
is commented out in the source, so the body only runs `handle_stats`; the
tracker state is returned unchanged alongside the printed row. -/
def print_stats (t : StatsTracker) (fractionDone : ℚ) :
    Except TrackerError (StatsTracker × Option (ℤ × ℚ × List (Stats × ℚ))) :=
  (handle_stats t fractionDone).map fun row => (t, row)

/- Pre-registered component instances, so that equality of `print_stats`
results is decidable (instance search fails to assemble the nested product
instance on its own). -/
instance : DecidableEq (Option (ℤ × ℚ × List (Stats × ℚ))) := inferInstance

instance : DecidableEq (StatsTracker × Option (ℤ × ℚ × List (Stats × ℚ))) :=
  inferInstance

/-! ## Derived-value helpers and sequences of calls -/

/-- The value `update_time` derives before storing (lines 104-107):
`end_time - start_time`, replaced by `batch_size / (end_time - start_time)`
when `batch_size` is truthy. -/
def timeVal (startTime endTime : ℚ) (batchSize : Option ℚ) : ℚ :=
  match batchSize with
  | some b => if b ≠ 0 then b / (endTime - startTime) else endTime - startTime
  | none => endTime - startTime

/-- The derived-rate division of `update_time` does not divide by zero:
whenever `batch_size` is truthy, the duration is nonzero. -/
def divOk (startTime endTime : ℚ) (batchSize : Option ℚ) : Prop :=
  match batchSize with
  | some b => b ≠ 0 → endTime - startTime ≠ 0
  | none => True

instance (startTime endTime : ℚ) (batchSize : Option ℚ) :
    Decidable (divOk startTime endTime batchSize) :=
  match batchSize with
  | some b => inferInstanceAs (Decidable (b ≠ 0 → endTime - startTime ≠ 0))
  | none => inferInstanceAs (Decidable True)

/-- One `update_time` call with `step` present, as data. -/
structure TimeCall where
  startTime : ℚ
  endTime : ℚ
  step : ℤ
  batch : Option ℚ

/-- The derived value of one call. -/
def callVal (c : TimeCall) : ℚ := timeVal c.startTime c.endTime c.batch

/-- The call does not divide by zero. -/
def callOk (c : TimeCall) : Prop := divOk c.startTime c.endTime c.batch

instance (c : TimeCall) : Decidable (callOk c) :=
  inferInstanceAs (Decidable (divOk c.startTime c.endTime c.batch))

/-- Run a sequence of `update_time` calls with `step` present on one key. -/
def runCalls (t : StatsTracker) (k : Stats) :
    List TimeCall → Except TrackerError StatsTracker
  | [] => .ok t
  | c :: cs =>
      (update_time t k c.startTime c.endTime (some c.step) c.batch).bind
        fun t₁ => runCalls t₁ k cs

/-- The buffer produced by one step-present insertion (lines 114-116):
evict the oldest entry when at capacity, then append. -/
def nextBuf (maxHistory : ℕ) (buf : List ℚ) (v : ℚ) : List ℚ :=
  (if maxHistory ≤ buf.length then buf.drop 1 else buf) ++ [v]

/-- The last `n` elements of a list, in order. -/
def lastN (n : ℕ) (l : List ℚ) : List ℚ := l.drop (l.length - n)

/-- `sum(buffer) / len(buffer)` (line 117). -/
def listMean (l : List ℚ) : ℚ := l.sum / (l.length : ℚ)

/-- Every averaged buffer in the dictionary respects the capacity. -/
def bufLenInv (t : StatsTracker) : Prop :=
  ∀ k buf avg, dictGet t.statsDict k = some (.averaged buf avg) →
    buf.length ≤ t.maxHistory

/-! ## Concrete states used by the closed theorems below -/

/-- A fresh tracker: capacity 2, tracking the throughput metric. -/
def W1 : StatsTracker := ⟨2, 1000, [.raysPerSec], some 0, [], false⟩

/-- Three interval calls with steps 1, 2, 3 and derived values 1, 2, 3. -/
def W1calls : List TimeCall := [⟨0, 1, 1, none⟩, ⟨0, 2, 2, none⟩, ⟨0, 3, 3, none⟩]

/-- A fresh tracker with capacity 2. -/
def W2e : StatsTracker := ⟨2, 1000, [.raysPerSec], some 0, [], false⟩

/-- `W2e` after one step-present interval call of duration 1. -/
def W2e' : StatsTracker :=
  ⟨2, 1000, [.raysPerSec], some 1, [(.raysPerSec, .averaged [1] 1)], true⟩

/-- A tracker whose buffer for the throughput metric is at capacity. -/
def W2 : StatsTracker :=
  ⟨2, 1000, [.raysPerSec], some 5, [(.raysPerSec, .averaged [1, 2] (3/2))], false⟩

/-- `W2` after a step-present interval call of duration 7: the oldest buffer
entry 1 is evicted. -/
def W2' : StatsTracker :=
  ⟨2, 1000, [.raysPerSec], some 6, [(.raysPerSec, .averaged [2, 7] (9/2))], false⟩

/-- A tracker that does not track the test-PSNR metric. -/
def W3 : StatsTracker := ⟨20, 1000, [.raysPerSec], some 0, [], false⟩

/-- A fresh tracker tracking the iteration-duration metric and ETA, with
`max_num_iterations = 1000`. -/
def W4 : StatsTracker := ⟨20, 1000, [.iterTrainTime, .eta], some 0, [], false⟩

/-- `W4` after `update_time(ITER_TRAIN_TIME, 0, 1/2, step=400)`: the average
is 1/2, so ETA = (1000 - 400) * (1/2) = 300. -/
def W4' : StatsTracker :=
  ⟨20, 1000, [.iterTrainTime, .eta], some 400,
    [(.iterTrainTime, .averaged [1/2] (1/2)), (.eta, .scalar 300)], true⟩

/-- A tracker that tracks the ETA metric, with an empty dictionary. -/
def X5 : StatsTracker := ⟨20, 1000, [.eta], some 0, [], false⟩

/-- A tracker with an existing ETA value 7. -/
def W5 : StatsTracker :=
  ⟨20, 1000, [.currTestPsnr, .eta], some 0, [(.eta, .scalar 7)], false⟩

/-- `W5` after a step-present interval call on the test-PSNR metric: the ETA
slot still holds 7. -/
def W5' : StatsTracker :=
  ⟨20, 1000, [.currTestPsnr, .eta], some 1,
    [(.eta, .scalar 7), (.currTestPsnr, .averaged [1] 1)], true⟩

/-- A tracker whose new-key flag is set and whose step is positive, so the
next `print_stats` call succeeds and prints a data row. -/
def X6 : StatsTracker :=
  ⟨20, 1000, [.currTestPsnr], some 1, [(.currTestPsnr, .scalar 1)], true⟩

/-- A fresh tracker tracking the test-PSNR metric. -/
def W6 : StatsTracker := ⟨20, 1000, [.currTestPsnr], some 0, [], false⟩

/-- `W6` after `update_value(CURR_TEST_PSNR, 1, 2)`: the key is introduced,
so the new-key flag is set. -/
def W6' : StatsTracker :=
  ⟨20, 1000, [.currTestPsnr], some 2, [(.currTestPsnr, .scalar 1)], true⟩

/-- A fresh tracker tracking the test-PSNR metric. -/
def X7 : StatsTracker := ⟨20, 1000, [.currTestPsnr], some 0, [], false⟩

/-- A fresh tracker tracking the throughput metric. -/
def W8 : StatsTracker := ⟨20, 1000, [.raysPerSec], some 0, [], false⟩

/-- `W8` after `update_time(RAYS_PER_SEC, 0.0, 2.0, batch_size=100)` (no
step): the stored scalar is 100 / 2 = 50 and the step becomes `None`. -/
def W8' : StatsTracker :=
  ⟨20, 1000, [.raysPerSec], none, [(.raysPerSec, .scalar 50)], true⟩

/-- A fresh tracker tracking the throughput metric. -/
def W9 : StatsTracker := ⟨20, 1000, [.raysPerSec], some 0, [], false⟩

/-- A tracker tracking the total-train-time metric, step 7. -/
def W10 : StatsTracker := ⟨20, 1000, [.totalTrainTime], some 7, [], false⟩

/-- `W10` after a step-absent interval call of duration 5: the step counter
is overwritten with `None`. -/
def W10' : StatsTracker :=
  ⟨20, 1000, [.totalTrainTime], none, [(.totalTrainTime, .scalar 5)], true⟩

/-- `W6` after a step-present interval call of duration 1. -/
def W6t' : StatsTracker :=
  ⟨20, 1000, [.currTestPsnr], some 1, [(.currTestPsnr, .averaged [1] 1)], true⟩

/-- `X7` after a step-present interval call at step 4. -/
def W7' : StatsTracker :=
  ⟨20, 1000, [.currTestPsnr], some 4, [(.currTestPsnr, .averaged [1] 1)], true⟩

/-! ## Dictionary lemmas -/

theorem dictGet_dictInsert_self (d : List (Stats × StatVal)) (k : Stats)
    (v : StatVal) : dictGet (dictInsert d k v) k = some v := by
  induction d with
  | nil => simp [dictInsert, dictGet]
  | cons p rest ih =>
      obtain ⟨k₁, v₁⟩ := p
      by_cases h : k₁ = k
      · simp [dictInsert, dictGet, h]
      · simp [dictInsert, dictGet, h, ih]

theorem dictGet_dictInsert_ne (d : List (Stats × StatVal)) (k k' : Stats)
    (v : StatVal) (h : k' ≠ k) :
    dictGet (dictInsert d k v) k' = dictGet d k' := by
  have hne : k ≠ k' := fun h₁ => h h₁.symm
  induction d with
  | nil => simp [dictInsert, dictGet, hne]
  | cons p rest ih =>
      obtain ⟨k₁, v₁⟩ := p
      by_cases h₁ : k₁ = k
      · subst h₁
        simp [dictInsert, dictGet, hne]
      · simp [dictInsert, dictGet, h₁, ih]

/-! ## List lemmas about the ring-buffer window -/

theorem lastN_length_le (n : ℕ) (l : List ℚ) : (lastN n l).length ≤ n := by
  simp [lastN]
  omega

theorem lastN_snoc (c : ℕ) (l : List ℚ) (v : ℚ) (hc : 1 ≤ c) :
    nextBuf c (lastN c l) v = lastN c (l ++ [v]) := by
  unfold nextBuf lastN
  rcases le_or_lt c l.length with h | h
  · have hlen : (l.drop (l.length - c)).length = c := by
      rw [List.length_drop]
      omega
    rw [if_pos (le_of_eq hlen.symm)]
    have h₁ : (l.drop (l.length - c)).drop 1 = l.drop (l.length - c + 1) := by
      rw [List.drop_drop]
    rw [h₁]
    have h₂ : (l ++ [v]).length - c = l.length - c + 1 := by
      rw [List.length_append, List.length_singleton]
      omega
    rw [h₂, List.drop_append_eq_append_drop]
    have h₃ : l.length - c + 1 - l.length = 0 := by omega
    rw [h₃, List.drop_zero]
  · have h₀ : l.length - c = 0 := by omega
    have hlen : (l.drop (l.length - c)).length = l.length := by
      rw [h₀, List.drop_zero]
    rw [if_neg (by omega)]
    rw [h₀, List.drop_zero]
    have h₂ : (l ++ [v]).length - c = 0 := by
      rw [List.length_append, List.length_singleton]
      omega
    rw [h₂, List.drop_zero]

/-! ## Evaluation and inversion lemmas for the update operations -/

theorem updateTimeEta_not_fire (t : StatsTracker) (name : Stats)
    (step : Option ℤ)
    (h : ¬(name = Stats.iterTrainTime ∧ Stats.eta ∈ t.statsToTrack)) :
    updateTimeEta t name step = .ok t := by
  unfold updateTimeEta
  rw [if_neg h]

theorem updateTimeEta_fire (t : StatsTracker) (s : ℤ) (buf : List ℚ)
    (avg : ℚ) (heta : Stats.eta ∈ t.statsToTrack)
    (hget : dictGet t.statsDict Stats.iterTrainTime =
      some (.averaged buf avg)) :
    updateTimeEta t Stats.iterTrainTime (some s) = .ok
      { t with
        statsDict :=
          dictInsert t.statsDict Stats.eta
            (.scalar ((t.maxNumIterations - s) * avg)) } := by
  unfold updateTimeEta
  rw [if_pos ⟨rfl, heta⟩]
  simp only [hget]

theorem popIfFull_ok (c : ℕ) (buf : List ℚ) (hlen : buf.length ≤ c)
    (hc : 1 ≤ c) :
    popIfFull c buf = .ok (if c ≤ buf.length then buf.drop 1 else buf) := by
  unfold popIfFull
  by_cases h : c ≤ buf.length
  · rw [if_pos h, if_pos h]
    cases buf with
    | nil => exact absurd h (by simp; omega)
    | cons x rest => rfl
  · rw [if_neg h, if_neg h]

theorem update_time_tracked_eq (t : StatsTracker) (name : Stats)
    (st et : ℚ) (step : Option ℤ) (bs : Option ℚ)
    (htrack : name ∈ t.statsToTrack) (hdiv : divOk st et bs) :
    update_time t name st et step bs =
      updateTimeStore
        { t with
          step := step
          newKey := (dictGet t.statsDict name).isNone || t.newKey }
        name (timeVal st et bs) step := by
  unfold update_time timeVal
  rw [if_pos htrack]
  cases bs with
  | none => rfl
  | some b =>
      dsimp only
      by_cases hb : b ≠ 0
      · rw [if_pos hb, if_pos hb, if_neg (hdiv hb)]
      · rw [if_neg hb, if_neg hb]

theorem updateTimeStore_none_eval (t : StatsTracker) (name : Stats) (val : ℚ)
    (hnc : ¬(name = Stats.iterTrainTime ∧ Stats.eta ∈ t.statsToTrack)) :
    updateTimeStore t name val none = .ok
      { t with statsDict := dictInsert t.statsDict name (.scalar val) } := by
  unfold updateTimeStore
  exact updateTimeEta_not_fire _ _ _ hnc

theorem updateTimeStore_some_eval (t : StatsTracker) (name : Stats)
    (val : ℚ) (s : ℤ) (buf : List ℚ) (avg₀ : ℚ)
    (hget : (dictGet t.statsDict name).getD (.averaged [] 0) =
      .averaged buf avg₀)
    (hlen : buf.length ≤ t.maxHistory) (hmax : 1 ≤ t.maxHistory) :
    updateTimeStore t name val (some s) =
      updateTimeEta
        { t with
          statsDict :=
            dictInsert t.statsDict name
              (.averaged (nextBuf t.maxHistory buf val)
                (listMean (nextBuf t.maxHistory buf val))) }
        name (some s) := by
  unfold updateTimeStore
  rw [hget]
  dsimp only
  rw [popIfFull_ok t.maxHistory buf hlen hmax]
  rfl

/-- What a successful ETA phase implies, when the slot just written for
`name` holds the averaged entry `(.averaged nb (listMean nb))`. -/
theorem updateTimeEta_tail (t : StatsTracker) (name : Stats) (nb : List ℚ)
    (s : ℤ) (t' : StatsTracker)
    (hst : updateTimeEta
        { t with
          statsDict :=
            dictInsert t.statsDict name (.averaged nb (listMean nb)) }
        name (some s) = .ok t') :
    dictGet t'.statsDict name = some (.averaged nb (listMean nb)) ∧
    t'.maxHistory = t.maxHistory ∧
    t'.maxNumIterations = t.maxNumIterations ∧
    t'.statsToTrack = t.statsToTrack ∧
    t'.step = t.step ∧
    t'.newKey = t.newKey ∧
    (∀ k', k' ≠ name → k' ≠ Stats.eta →
      dictGet t'.statsDict k' = dictGet t.statsDict k') ∧
    (¬(name = Stats.iterTrainTime ∧ Stats.eta ∈ t.statsToTrack) →
      ∀ k', k' ≠ name → dictGet t'.statsDict k' = dictGet t.statsDict k') ∧
    (name = Stats.iterTrainTime → Stats.eta ∈ t.statsToTrack →
      dictGet t'.statsDict Stats.eta =
        some (.scalar ((t.maxNumIterations - s) * listMean nb))) := by
  by_cases hfire : name = Stats.iterTrainTime ∧ Stats.eta ∈ t.statsToTrack
  · obtain ⟨hk, heta⟩ := hfire
    subst hk
    rw [updateTimeEta_fire
      { t with
        statsDict :=
          dictInsert t.statsDict Stats.iterTrainTime
            (.averaged nb (listMean nb)) }
      s nb (listMean nb) heta (dictGet_dictInsert_self _ _ _)] at hst
    injection hst with hst
    subst hst
    have hne : Stats.iterTrainTime ≠ Stats.eta := by decide
    refine ⟨?_, rfl, rfl, rfl, rfl, rfl, ?_, ?_, ?_⟩
    · rw [dictGet_dictInsert_ne _ _ _ _ hne,
        dictGet_dictInsert_self]
    · intro k' hk' hke
      rw [dictGet_dictInsert_ne _ _ _ _ hke,
        dictGet_dictInsert_ne _ _ _ _ hk']
    · intro hnc
      exact absurd ⟨rfl, heta⟩ hnc
    · intro _ _
      rw [dictGet_dictInsert_self]
  · rw [updateTimeEta_not_fire
      { t with
        statsDict :=
          dictInsert t.statsDict name (.averaged nb (listMean nb)) }
      name (some s) hfire] at hst
    injection hst with hst
    subst hst
    refine ⟨dictGet_dictInsert_self _ _ _, rfl, rfl, rfl, rfl, rfl, ?_, ?_, ?_⟩
    · intro k' hk' _
      exact dictGet_dictInsert_ne _ _ _ _ hk'
    · intro _ k' hk'
      exact dictGet_dictInsert_ne _ _ _ _ hk'
    · intro hk heta
      exact absurd ⟨hk, heta⟩ hfire

/-- Forward evaluation of a step-present `update_time` call on a tracked key
whose slot is empty or already averaged. -/
theorem update_time_some_ok (t : StatsTracker) (k : Stats) (st et : ℚ)
    (s : ℤ) (bs : Option ℚ) (buf : List ℚ) (avg₀ : ℚ)
    (htrack : k ∈ t.statsToTrack)
    (hget : (dictGet t.statsDict k).getD (.averaged [] 0) =
      .averaged buf avg₀)
    (hlen : buf.length ≤ t.maxHistory) (hmax : 1 ≤ t.maxHistory)
    (hdiv : divOk st et bs) :
    ∃ t', update_time t k st et (some s) bs = .ok t' ∧
      t'.maxHistory = t.maxHistory ∧
      t'.maxNumIterations = t.maxNumIterations ∧
      t'.statsToTrack = t.statsToTrack ∧
      t'.step = some s ∧
      t'.newKey = ((dictGet t.statsDict k).isNone || t.newKey) ∧
      dictGet t'.statsDict k =
        some (.averaged (nextBuf t.maxHistory buf (timeVal st et bs))
          (listMean (nextBuf t.maxHistory buf (timeVal st et bs)))) := by
  have hmain :
      update_time t k st et (some s) bs =
        updateTimeEta
          { t with
            step := some s
            newKey := (dictGet t.statsDict k).isNone || t.newKey
            statsDict :=
              dictInsert t.statsDict k
                (.averaged (nextBuf t.maxHistory buf (timeVal st et bs))
                  (listMean (nextBuf t.maxHistory buf (timeVal st et bs)))) }
          k (some s) := by
    rw [update_time_tracked_eq t k st et (some s) bs htrack hdiv]
    exact updateTimeStore_some_eval _ k (timeVal st et bs) s buf avg₀ hget
      hlen hmax
  obtain ⟨t', ht'⟩ :
      ∃ t', updateTimeEta
        { t with
          step := some s
          newKey := (dictGet t.statsDict k).isNone || t.newKey
          statsDict :=
            dictInsert t.statsDict k
              (.averaged (nextBuf t.maxHistory buf (timeVal st et bs))
                (listMean (nextBuf t.maxHistory buf (timeVal st et bs)))) }
        k (some s) = .ok t' := by
    by_cases hfire : k = Stats.iterTrainTime ∧ Stats.eta ∈ t.statsToTrack
    · obtain ⟨hk, heta⟩ := hfire
      subst hk
      exact ⟨_, updateTimeEta_fire _ s _ _ heta
        (dictGet_dictInsert_self _ _ _)⟩
    · exact ⟨_, updateTimeEta_not_fire _ _ _ hfire⟩
  have htail := updateTimeEta_tail
    { t with
      step := some s
      newKey := (dictGet t.statsDict k).isNone || t.newKey }
    k (nextBuf t.maxHistory buf (timeVal st et bs)) s t' ht'
  obtain ⟨h1, h2, h3, h4, h5, h6, _, _, _⟩ := htail
  exact ⟨t', by rw [hmain]; exact ht', h2, h3, h4, h5, h6, h1⟩

/-- Forward evaluation of a step-absent `update_time` call on a tracked key
that does not trigger the ETA side effect. -/
theorem update_time_none_ok (t : StatsTracker) (k : Stats) (st et : ℚ)
    (bs : Option ℚ)
    (htrack : k ∈ t.statsToTrack) (hdiv : divOk st et bs)
    (hnc : ¬(k = Stats.iterTrainTime ∧ Stats.eta ∈ t.statsToTrack)) :
    update_time t k st et none bs = .ok
      { t with
        step := none
        newKey := (dictGet t.statsDict k).isNone || t.newKey
        statsDict := dictInsert t.statsDict k (.scalar (timeVal st et bs)) } := by
  rw [update_time_tracked_eq t k st et none bs htrack hdiv]
  exact updateTimeStore_none_eval _ k (timeVal st et bs) hnc

/-- Inversion of a successful `update_time` call: everything the claims need
about the resulting state. -/
theorem update_time_ok_inv (t t' : StatsTracker) (k : Stats) (st et : ℚ)
    (step : Option ℤ) (bs : Option ℚ)
    (h : update_time t k st et step bs = .ok t') :
    (k ∉ t.statsToTrack ∧ t' = t) ∨
    (k ∈ t.statsToTrack ∧
      t'.maxHistory = t.maxHistory ∧
      t'.maxNumIterations = t.maxNumIterations ∧
      t'.statsToTrack = t.statsToTrack ∧
      t'.step = step ∧
      t'.newKey = ((dictGet t.statsDict k).isNone || t.newKey) ∧
      (∀ k', k' ≠ k → k' ≠ Stats.eta →
        dictGet t'.statsDict k' = dictGet t.statsDict k') ∧
      (¬(k = Stats.iterTrainTime ∧ Stats.eta ∈ t.statsToTrack) →
        ∀ k', k' ≠ k → dictGet t'.statsDict k' = dictGet t.statsDict k') ∧
      (step = none →
        dictGet t'.statsDict k = some (.scalar (timeVal st et bs))) ∧
      (∀ s, step = some s → ∃ buf avg₀,
        (dictGet t.statsDict k).getD (.averaged [] 0) = .averaged buf avg₀ ∧
        (t.maxHistory ≤ buf.length → buf ≠ []) ∧
        dictGet t'.statsDict k =
          some (.averaged (nextBuf t.maxHistory buf (timeVal st et bs))
            (listMean (nextBuf t.maxHistory buf (timeVal st et bs))))) ∧
      (k = Stats.iterTrainTime → Stats.eta ∈ t.statsToTrack →
        ∃ s buf' avg', step = some s ∧
          dictGet t'.statsDict k = some (.averaged buf' avg') ∧
          dictGet t'.statsDict Stats.eta =
            some (.scalar ((t.maxNumIterations - s) * avg')))) := by
  by_cases htrack : k ∈ t.statsToTrack
  case neg =>
    left
    unfold update_time at h
    rw [if_neg htrack] at h
    injection h with h
    exact ⟨htrack, h.symm⟩
  case pos =>
  right
  have hsplit : updateTimeStore
      { t with
        step := step
        newKey := (dictGet t.statsDict k).isNone || t.newKey }
      k (timeVal st et bs) step = .ok t' := by
    unfold update_time at h
    rw [if_pos htrack] at h
    dsimp only at h
    cases bs with
    | none => exact h
    | some b =>
        dsimp only at h
        by_cases hb : b ≠ 0
        · rw [if_pos hb] at h
          by_cases hz : et - st = 0
          · rw [if_pos hz] at h
            exact Except.noConfusion h
          · rw [if_neg hz] at h
            have hv : timeVal st et (some b) = b / (et - st) := by
              unfold timeVal
              dsimp only
              rw [if_pos hb]
            rw [hv]
            exact h
        · rw [if_neg hb] at h
          have hv : timeVal st et (some b) = et - st := by
            unfold timeVal
            dsimp only
            rw [if_neg hb]
          rw [hv]
          exact h
  refine ⟨htrack, ?_⟩
  cases step with
  | none =>
      have hnc : ¬(k = Stats.iterTrainTime ∧ Stats.eta ∈ t.statsToTrack) := by
        intro hc
        obtain ⟨hk, heta⟩ := hc
        subst hk
        unfold updateTimeStore updateTimeEta at hsplit
        rw [if_pos ⟨rfl, heta⟩] at hsplit
        exact Except.noConfusion hsplit
      rw [updateTimeStore_none_eval
        { t with
          step := none
          newKey := (dictGet t.statsDict k).isNone || t.newKey }
        k (timeVal st et bs) hnc] at hsplit
      injection hsplit with hsplit
      subst hsplit
      refine ⟨rfl, rfl, rfl, rfl, rfl, ?_, ?_, ?_, ?_, ?_⟩
      · intro k' hk' _
        exact dictGet_dictInsert_ne _ _ _ _ hk'
      · intro _ k' hk'
        exact dictGet_dictInsert_ne _ _ _ _ hk'
      · intro _
        exact dictGet_dictInsert_self _ _ _
      · intro s hs
        exact Option.noConfusion hs
      · intro hk heta
        exact absurd ⟨hk, heta⟩ hnc
  | some s =>
      unfold updateTimeStore at hsplit
      dsimp only at hsplit
      cases hget : (dictGet t.statsDict k).getD (.averaged [] 0) with
      | scalar q =>
          rw [hget] at hsplit
          exact Except.noConfusion hsplit
      | averaged buf avg₀ =>
          rw [hget] at hsplit
          dsimp only at hsplit
          by_cases hfull : t.maxHistory ≤ buf.length
          · cases buf with
            | nil =>
                exfalso
                unfold popIfFull at hsplit
                rw [if_pos hfull] at hsplit
                exact Except.noConfusion hsplit
            | cons x rest =>
                have hpop : popIfFull t.maxHistory (x :: rest) = .ok rest := by
                  unfold popIfFull
                  rw [if_pos hfull]
                rw [hpop] at hsplit
                dsimp only [Except.bind] at hsplit
                have hnb : nextBuf t.maxHistory (x :: rest) (timeVal st et bs) =
                    rest ++ [timeVal st et bs] := by
                  unfold nextBuf
                  rw [if_pos hfull]
                  rfl
                have htail := updateTimeEta_tail
                  { t with
                    step := some s
                    newKey := (dictGet t.statsDict k).isNone || t.newKey }
                  k (rest ++ [timeVal st et bs]) s t' hsplit
                obtain ⟨h1, h2, h3, h4, h5, h6, h7, h8, h9⟩ := htail
                refine ⟨h2, h3, h4, h5, h6, h7, h8, ?_, ?_, ?_⟩
                · intro hs
                  exact Option.noConfusion hs
                · intro s' hs'
                  injection hs' with hs'
                  subst hs'
                  refine ⟨x :: rest, avg₀, rfl, fun _ => by simp, ?_⟩
                  rw [hnb]
                  exact h1
                · intro hk heta
                  exact ⟨s, rest ++ [timeVal st et bs],
                    listMean (rest ++ [timeVal st et bs]), rfl, h1, h9 hk heta⟩
          · have hpop : popIfFull t.maxHistory buf = .ok buf := by
              unfold popIfFull
              rw [if_neg hfull]
            rw [hpop] at hsplit
            dsimp only [Except.bind] at hsplit
            have hnb : nextBuf t.maxHistory buf (timeVal st et bs) =
                buf ++ [timeVal st et bs] := by
              unfold nextBuf
              rw [if_neg hfull]
            have htail := updateTimeEta_tail
              { t with
                step := some s
                newKey := (dictGet t.statsDict k).isNone || t.newKey }
              k (buf ++ [timeVal st et bs]) s t' hsplit
            obtain ⟨h1, h2, h3, h4, h5, h6, h7, h8, h9⟩ := htail
            refine ⟨h2, h3, h4, h5, h6, h7, h8, ?_, ?_, ?_⟩
            · intro hs
              exact Option.noConfusion hs
            · intro s' hs'
              injection hs' with hs'
              subst hs'
              refine ⟨buf, avg₀, rfl, fun hh => absurd hh hfull, ?_⟩
              rw [hnb]
              exact h1
            · intro hk heta
              exact ⟨s, buf ++ [timeVal st et bs],
                listMean (buf ++ [timeVal st et bs]), rfl, h1, h9 hk heta⟩

/-- Running a sequence of step-present calls on one tracked key keeps the
slot an exact averaged window over the submitted derived values. -/
theorem runCalls_ok_aux (k : Stats) (calls : List TimeCall) :
    ∀ (t : StatsTracker) (vals : List ℚ),
      k ∈ t.statsToTrack → 1 ≤ t.maxHistory →
      (dictGet t.statsDict k).getD (.averaged [] 0) =
        .averaged (lastN t.maxHistory vals)
          (listMean (lastN t.maxHistory vals)) →
      (∀ c ∈ calls, callOk c) →
      ∃ t', runCalls t k calls = .ok t' ∧
        t'.maxHistory = t.maxHistory ∧
        (calls = [] → t' = t) ∧
        (calls ≠ [] → dictGet t'.statsDict k =
          some (.averaged (lastN t.maxHistory (vals ++ calls.map callVal))
            (listMean (lastN t.maxHistory (vals ++ calls.map callVal))))) := by
  induction calls with
  | nil =>
      intro t vals htrack hmax hget _
      exact ⟨t, rfl, rfl, fun _ => rfl, fun hne => absurd rfl hne⟩
  | cons c cs ih =>
      intro t vals htrack hmax hget hok
      obtain ⟨t₁, hrun1, hmax1, hmni1, htrack1, hstep1, hnew1, hget1⟩ :=
        update_time_some_ok t k c.startTime c.endTime c.step c.batch
          (lastN t.maxHistory vals) (listMean (lastN t.maxHistory vals))
          htrack hget (lastN_length_le _ _) hmax
          (hok c (List.mem_cons_self c cs))
      rw [lastN_snoc t.maxHistory vals (timeVal c.startTime c.endTime c.batch)
        hmax] at hget1
      have hget1' : (dictGet t₁.statsDict k).getD (.averaged [] 0) =
          .averaged (lastN t₁.maxHistory (vals ++ [callVal c]))
            (listMean (lastN t₁.maxHistory (vals ++ [callVal c]))) := by
        rw [hmax1, hget1]
        rfl
      obtain ⟨t', hrun2, hmax2, hnil2, hne2⟩ :=
        ih t₁ (vals ++ [callVal c]) (by rw [htrack1]; exact htrack)
          (by rw [hmax1]; exact hmax) hget1'
          (fun c' hc' => hok c' (List.mem_cons_of_mem c hc'))
      refine ⟨t', ?_, hmax2.trans hmax1, fun hcontra => absurd hcontra
        (by simp), fun _ => ?_⟩
      · unfold runCalls
        rw [hrun1]
        dsimp only [Except.bind]
        exact hrun2
      · by_cases hcs : cs = []
        · subst hcs
          have ht' : t' = t₁ := hnil2 rfl
          subst ht'
          simpa [callVal] using hget1
        · have hfin := hne2 hcs
          rw [hmax1] at hfin
          simpa [List.append_assoc] using hfin

/-! ## Claim theorems -/

/-- Claim C1: for every tracked key and every sequence of `update_time`
calls with `step` present (and no zero-duration division), after the calls
the stored entry for that key is an averaged record whose buffer is the most
recent at-most-`max_history` derived values in submission order and whose
average is their exact arithmetic mean; since every prefix of such a
sequence is itself such a sequence, this holds after each call. -/
theorem update_time_average_exact (t : StatsTracker) (k : Stats)
    (calls : List TimeCall)
    (htrack : k ∈ t.statsToTrack) (hmax : 1 ≤ t.maxHistory)
    (hfresh : dictGet t.statsDict k = none)
    (hok : ∀ c ∈ calls, callOk c) :
    ∃ t', runCalls t k calls = .ok t' ∧
      (calls ≠ [] → dictGet t'.statsDict k =
        some (.averaged (lastN t.maxHistory (calls.map callVal))
          (listMean (lastN t.maxHistory (calls.map callVal))))) := by
  have hget0 : (dictGet t.statsDict k).getD (.averaged [] 0) =
      .averaged (lastN t.maxHistory []) (listMean (lastN t.maxHistory [])) := by
    rw [hfresh]
    simp [lastN, listMean]
  obtain ⟨t', h1, _, _, hne⟩ :=
    runCalls_ok_aux k calls t [] htrack hmax hget0 hok
  refine ⟨t', h1, fun hcne => ?_⟩
  simpa using hne hcne

theorem update_time_average_exact_witness :
    Stats.raysPerSec ∈ W1.statsToTrack ∧ 1 ≤ W1.maxHistory ∧
    dictGet W1.statsDict Stats.raysPerSec = none ∧
    (∀ c ∈ W1calls, callOk c) ∧
    lastN W1.maxHistory (W1calls.map callVal) = [2, 3] ∧
    listMean (lastN W1.maxHistory (W1calls.map callVal)) = 5 / 2 ∧
    ∃ t', runCalls W1 Stats.raysPerSec W1calls = .ok t' ∧
      (W1calls ≠ [] → dictGet t'.statsDict Stats.raysPerSec =
        some (.averaged (lastN W1.maxHistory (W1calls.map callVal))
          (listMean (lastN W1.maxHistory (W1calls.map callVal))))) :=
  ⟨by decide, by decide, by decide, by decide, by decide, by decide,
    update_time_average_exact W1 Stats.raysPerSec W1calls (by decide)
      (by decide) (by decide) (by decide)⟩

/-- Claim C3: for a key outside the tracked set, both ingestion operations
leave the whole tracker state unchanged and raise no error. -/
theorem untracked_key_noop (t : StatsTracker) (name : Stats) (v : ℚ)
    (s : ℤ) (st et : ℚ) (step : Option ℤ) (bs : Option ℚ)
    (h : name ∉ t.statsToTrack) :
    update_value t name v s = t ∧ update_time t name st et step bs = .ok t := by
  constructor
  · unfold update_value
    rw [if_neg h]
  · unfold update_time
    rw [if_neg h]

theorem untracked_key_noop_witness :
    Stats.currTestPsnr ∉ W3.statsToTrack ∧
    update_value W3 Stats.currTestPsnr 1 2 = W3 ∧
    update_time W3 Stats.currTestPsnr 0 1 (some 2) none = .ok W3 :=
  ⟨by decide,
    (untracked_key_noop W3 Stats.currTestPsnr 1 2 0 1 (some 2) none
      (by decide)).1,
    (untracked_key_noop W3 Stats.currTestPsnr 1 2 0 1 (some 2) none
      (by decide)).2⟩

/-- Claim C4: a successful step-present `update_time` call on the tracked
iteration-duration metric, with the ETA metric tracked, leaves the duration
metric in an averaged state and sets the ETA value to
`(max_num_iterations - step) * average`; at `max_num_iterations = 1000`,
average 1/2 and step 400 this is 300 (see the witness). -/
theorem eta_derivation (t t' : StatsTracker) (st et : ℚ) (s : ℤ)
    (bs : Option ℚ)
    (htrack : Stats.iterTrainTime ∈ t.statsToTrack)
    (heta : Stats.eta ∈ t.statsToTrack)
    (h : update_time t Stats.iterTrainTime st et (some s) bs = .ok t') :
    ∃ buf avg, dictGet t'.statsDict Stats.iterTrainTime =
        some (.averaged buf avg) ∧
      dictGet t'.statsDict Stats.eta =
        some (.scalar ((t.maxNumIterations - s) * avg)) := by
  rcases update_time_ok_inv t t' Stats.iterTrainTime st et (some s) bs h with
    ⟨hnt, _⟩ | ⟨_, _, _, _, _, _, _, _, _, _, hfire⟩
  · exact absurd htrack hnt
  · obtain ⟨s', buf', avg', hss, hk, he⟩ := hfire rfl heta
    injection hss with hss
    subst hss
    exact ⟨buf', avg', hk, he⟩

theorem eta_derivation_witness :
    Stats.iterTrainTime ∈ W4.statsToTrack ∧ Stats.eta ∈ W4.statsToTrack ∧
    update_time W4 Stats.iterTrainTime 0 (1/2) (some 400) none = .ok W4' ∧
    dictGet W4'.statsDict Stats.eta = some (.scalar 300) ∧
    (300 : ℚ) = (1000 - 400) * (1/2) ∧
    ∃ buf avg, dictGet W4'.statsDict Stats.iterTrainTime =
        some (.averaged buf avg) ∧
      dictGet W4'.statsDict Stats.eta =
        some (.scalar ((W4.maxNumIterations - 400) * avg)) :=
  ⟨by decide, by decide, by decide, by decide, by decide,
    eta_derivation W4 W4' 0 (1/2) 400 none (by decide) (by decide)
      (by decide)⟩

/-- Claim C8: a step-absent `update_time` call on a tracked key with a
positive `batch_size` stores the scalar `batch_size / (end_time -
start_time)`; with start 0, end 2 and batch size 100 the stored value is 50
(see the witness). -/
theorem throughput_scalar (t t' : StatsTracker) (name : Stats) (st et : ℚ)
    (b : ℚ) (htrack : name ∈ t.statsToTrack) (hb : 0 < b)
    (h : update_time t name st et none (some b) = .ok t') :
    dictGet t'.statsDict name = some (.scalar (b / (et - st))) := by
  rcases update_time_ok_inv t t' name st et none (some b) h with
    ⟨hnt, _⟩ | ⟨_, _, _, _, _, _, _, _, hnone, _, _⟩
  · exact absurd htrack hnt
  · have hv : timeVal st et (some b) = b / (et - st) := by
      unfold timeVal
      dsimp only
      rw [if_pos (ne_of_gt hb)]
    have hres := hnone rfl
    rwa [hv] at hres

theorem throughput_scalar_witness :
    Stats.raysPerSec ∈ W8.statsToTrack ∧ (0 : ℚ) < 100 ∧
    update_time W8 Stats.raysPerSec 0 2 none (some 100) = .ok W8' ∧
    dictGet W8'.statsDict Stats.raysPerSec =
      some (.scalar (100 / (2 - 0))) ∧
    (100 : ℚ) / (2 - 0) = 50 :=
  ⟨by decide, by decide, by decide,
    throughput_scalar W8 W8' Stats.raysPerSec 0 2 100 (by decide) (by decide)
      (by decide), by decide⟩

/-- Claim C9: a `update_time` call on a tracked key with a positive
`batch_size` and zero duration hits the unguarded division and fails with a
division error; nothing is stored. -/
theorem zero_duration_division_error (t : StatsTracker) (name : Stats)
    (st et : ℚ) (step : Option ℤ) (b : ℚ)
    (htrack : name ∈ t.statsToTrack) (hb : 0 < b) (hdur : et - st = 0) :
    update_time t name st et step (some b) = .error .zeroDivision := by
  unfold update_time
  rw [if_pos htrack]
  dsimp only
  rw [if_pos (ne_of_gt hb), if_pos hdur]

theorem zero_duration_division_error_witness :
    Stats.raysPerSec ∈ W9.statsToTrack ∧ (0 : ℚ) < 100 ∧ (2 : ℚ) - 2 = 0 ∧
    update_time W9 Stats.raysPerSec 2 2 (some 1) (some 100) =
      .error .zeroDivision :=
  ⟨by decide, by decide, by decide,
    zero_duration_division_error W9 Stats.raysPerSec 2 2 (some 1) 100
      (by decide) (by decide) (by decide)⟩

/-- Claim C10: a successful step-absent `update_time` call on a tracked key
overwrites the step counter with the absent marker, and the next
`print_stats` call then fails on the comparison of the absent step with 0
instead of producing a suppressed (no-data-row) output. -/
theorem step_none_poisons_snapshot (t t' : StatsTracker) (name : Stats)
    (st et : ℚ) (bs : Option ℚ) (f : ℚ)
    (htrack : name ∈ t.statsToTrack)
    (h : update_time t name st et none bs = .ok t') :
    t'.step = none ∧ print_stats t' f = .error .typeError := by
  rcases update_time_ok_inv t t' name st et none bs h with
    ⟨hnt, _⟩ | ⟨_, _, _, _, hstep, _⟩
  · exact absurd htrack hnt
  · refine ⟨hstep, ?_⟩
    unfold print_stats handle_stats
    rw [hstep]
    rfl

theorem step_none_poisons_snapshot_witness :
    Stats.totalTrainTime ∈ W10.statsToTrack ∧
    update_time W10 Stats.totalTrainTime 0 5 none none = .ok W10' ∧
    (W10'.step = none ∧ print_stats W10' 0 = .error .typeError) :=
  ⟨by decide, by decide,
    step_none_poisons_snapshot W10 W10' Stats.totalTrainTime 0 5 none 0
      (by decide) (by decide)⟩

/-- A successful `print_stats` call returns the tracker unchanged (the body
only runs `handle_stats`, which never writes state). -/
theorem print_stats_preserves_state (t : StatsTracker) (f : ℚ)
    (t' : StatsTracker) (row : Option (ℤ × ℚ × List (Stats × ℚ)))
    (h : print_stats t f = .ok (t', row)) : t' = t := by
  unfold print_stats at h
  cases hh : handle_stats t f with
  | error e =>
      rw [hh] at h
      exact Except.noConfusion h
  | ok r =>
      rw [hh] at h
      injection h with h
      exact (congrArg Prod.fst h).symm

/-- Claim C2: the buffer-length bound is preserved by both ingestion
operations, and an insertion into a buffer holding exactly `max_history`
elements evicts exactly the oldest element before appending, leaving the
length at `max_history`. -/
theorem buffer_capacity_invariant :
    (∀ (t : StatsTracker) (name : Stats) (v : ℚ) (s : ℤ),
      bufLenInv t → bufLenInv (update_value t name v s)) ∧
    (∀ (t t' : StatsTracker) (name : Stats) (st et : ℚ) (step : Option ℤ)
      (bs : Option ℚ), bufLenInv t →
      update_time t name st et step bs = .ok t' → bufLenInv t') ∧
    (∀ (t t' : StatsTracker) (name : Stats) (st et : ℚ) (s : ℤ)
      (bs : Option ℚ) (buf : List ℚ) (avg : ℚ),
      name ∈ t.statsToTrack →
      dictGet t.statsDict name = some (.averaged buf avg) →
      buf.length = t.maxHistory →
      update_time t name st et (some s) bs = .ok t' →
      dictGet t'.statsDict name =
        some (.averaged (buf.drop 1 ++ [timeVal st et bs])
          (listMean (buf.drop 1 ++ [timeVal st et bs]))) ∧
      (buf.drop 1 ++ [timeVal st et bs]).length = t.maxHistory) := by
  refine ⟨?_, ?_, ?_⟩
  · intro t name v s hinv
    unfold update_value
    by_cases htr : name ∈ t.statsToTrack
    · rw [if_pos htr]
      intro k buf avg hk
      dsimp only at hk ⊢
      by_cases hkn : k = name
      · subst hkn
        rw [dictGet_dictInsert_self] at hk
        exact absurd hk (by simp)
      · rw [dictGet_dictInsert_ne _ _ _ _ hkn] at hk
        exact hinv k buf avg hk
    · rw [if_neg htr]
      exact hinv
  · intro t t' name st et step bs hinv h
    rcases update_time_ok_inv t t' name st et step bs h with
      ⟨_, rfl⟩ | ⟨htr, hmax, _, _, _, _, hframe1, hframe2, hnone, hsome, hfire⟩
    · exact hinv
    · intro k buf avg hk
      rw [hmax]
      by_cases hkname : k = name
      · subst hkname
        cases step with
        | none =>
            rw [hnone rfl] at hk
            exact absurd hk (by simp)
        | some s =>
            obtain ⟨buf₀, avg₀, hget₀, hpop₀, hentry⟩ := hsome s rfl
            rw [hentry] at hk
            injection hk with hk
            injection hk with h1 h2
            subst h1
            have hb₀ : buf₀.length ≤ t.maxHistory ∨ buf₀ = [] := by
              cases hdg : dictGet t.statsDict k with
              | none =>
                  right
                  rw [hdg] at hget₀
                  simp only [Option.getD_none] at hget₀
                  injection hget₀ with hb _
                  exact hb.symm
              | some val =>
                  left
                  rw [hdg] at hget₀
                  simp only [Option.getD_some] at hget₀
                  exact hinv k buf₀ avg₀ (by rw [hdg, hget₀])
            unfold nextBuf
            by_cases hfull : t.maxHistory ≤ buf₀.length
            · rw [if_pos hfull]
              have hne : buf₀ ≠ [] := hpop₀ hfull
              have hpos : 0 < buf₀.length := List.length_pos.mpr hne
              rcases hb₀ with hb | hb
              · simp only [List.length_append, List.length_drop,
                  List.length_singleton]
                omega
              · exact absurd hb hne
            · rw [if_neg hfull]
              simp only [List.length_append, List.length_singleton]
              omega
      · by_cases hketa : k = Stats.eta
        · subst hketa
          by_cases hfirec : name = Stats.iterTrainTime ∧
              Stats.eta ∈ t.statsToTrack
          · obtain ⟨hn, he⟩ := hfirec
            obtain ⟨s', buf', avg', _, _, hetaentry⟩ := hfire hn he
            rw [hetaentry] at hk
            exact absurd hk (by simp)
          · rw [hframe2 hfirec _ hkname] at hk
            exact hinv _ buf avg hk
        · rw [hframe1 _ hkname hketa] at hk
          exact hinv _ buf avg hk
  · intro t t' name st et s bs buf avg htr hdg hlen h
    rcases update_time_ok_inv t t' name st et (some s) bs h with
      ⟨hnt, _⟩ | ⟨_, _, _, _, _, _, _, _, _, hsome, _⟩
    · exact absurd htr hnt
    · obtain ⟨buf₀, avg₀, hget₀, hpop₀, hentry⟩ := hsome s rfl
      rw [hdg] at hget₀
      simp only [Option.getD_some] at hget₀
      injection hget₀ with h1 h2
      subst h1
      have hfull : t.maxHistory ≤ buf.length := le_of_eq hlen.symm
      have hnb : nextBuf t.maxHistory buf (timeVal st et bs) =
          buf.drop 1 ++ [timeVal st et bs] := by
        unfold nextBuf
        rw [if_pos hfull]
      rw [hnb] at hentry
      refine ⟨hentry, ?_⟩
      have hne : buf ≠ [] := hpop₀ hfull
      have hpos : 0 < buf.length := List.length_pos.mpr hne
      simp only [List.length_append, List.length_drop, List.length_singleton]
      omega

theorem buffer_capacity_invariant_witness :
    bufLenInv (update_value W2e Stats.raysPerSec 1 1) ∧
    bufLenInv W2e' ∧
    (dictGet W2'.statsDict Stats.raysPerSec =
        some (.averaged ([1, 2].drop 1 ++ [timeVal 0 7 none])
          (listMean ([1, 2].drop 1 ++ [timeVal 0 7 none]))) ∧
      (([1, 2] : List ℚ).drop 1 ++ [timeVal 0 7 none]).length =
        W2.maxHistory) :=
  ⟨buffer_capacity_invariant.1 W2e Stats.raysPerSec 1 1
      (fun k buf avg hk => Option.noConfusion hk),
    buffer_capacity_invariant.2.1 W2e W2e' Stats.raysPerSec 0 1 (some 1) none
      (fun k buf avg hk => Option.noConfusion hk) (by decide),
    buffer_capacity_invariant.2.2 W2 W2' Stats.raysPerSec 0 7 6 none [1, 2]
      (3/2) (by decide) (by decide) (by decide) (by decide)⟩

/-- Claim C5 counterexample: with `ETA` tracked, a plain `update_value` call
naming `ETA` writes the ETA value (from absent to a scalar), so the ETA
metric does have write paths other than the iteration-duration side effect,
contradicting the claim as stated. -/
theorem eta_direct_write_counterexample :
    dictGet X5.statsDict Stats.eta = none ∧
    dictGet (update_value X5 Stats.eta 1 1).statsDict Stats.eta =
      some (.scalar 1) := by decide

/-- Claim C5 (amended): the ETA value is never written by an `update_value`
call naming a key other than `ETA` itself, nor by a successful `update_time`
call naming a key other than `ETA` and other than the iteration-duration
metric; the only write paths are direct calls naming `ETA` and the
iteration-duration side effect. -/
theorem eta_no_other_writer (t t' : StatsTracker) (name : Stats) (v : ℚ)
    (s : ℤ) (st et : ℚ) (step : Option ℤ) (bs : Option ℚ) :
    (name ≠ Stats.eta →
      dictGet (update_value t name v s).statsDict Stats.eta =
        dictGet t.statsDict Stats.eta) ∧
    (name ≠ Stats.eta → name ≠ Stats.iterTrainTime →
      update_time t name st et step bs = .ok t' →
      dictGet t'.statsDict Stats.eta = dictGet t.statsDict Stats.eta) := by
  constructor
  · intro hne
    unfold update_value
    by_cases htr : name ∈ t.statsToTrack
    · rw [if_pos htr]
      dsimp only
      exact dictGet_dictInsert_ne _ _ _ _ (Ne.symm hne)
    · rw [if_neg htr]
  · intro hne hni h
    rcases update_time_ok_inv t t' name st et step bs h with
      ⟨_, rfl⟩ | ⟨_, _, _, _, _, _, _, hframe2, _⟩
    · rfl
    · exact hframe2 (fun hc => hni hc.1) _ (Ne.symm hne)

theorem eta_no_other_writer_witness :
    Stats.currTestPsnr ≠ Stats.eta ∧
    Stats.currTestPsnr ≠ Stats.iterTrainTime ∧
    update_time W5 Stats.currTestPsnr 0 1 (some 1) none = .ok W5' ∧
    dictGet (update_value W5 Stats.currTestPsnr 1 1).statsDict Stats.eta =
      dictGet W5.statsDict Stats.eta ∧
    dictGet W5'.statsDict Stats.eta = dictGet W5.statsDict Stats.eta :=
  ⟨by decide, by decide, by decide,
    (eta_no_other_writer W5 W5' Stats.currTestPsnr 1 1 0 1 (some 1) none).1
      (by decide),
    (eta_no_other_writer W5 W5' Stats.currTestPsnr 1 1 0 1 (some 1) none).2
      (by decide) (by decide) (by decide)⟩

/-- Claim C6 counterexample: a tracker whose new-key flag is set; a
successful `print_stats` call (which prints a data row) returns the tracker
unchanged, with the flag still set — `print_stats` does not clear it (the
`handle_header` call is commented out in the source, and even it never
assigned the flag). -/
theorem new_key_not_cleared_counterexample :
    X6.newKey = true ∧
    print_stats X6 0 = .ok (X6, some (1, 0, [(Stats.currTestPsnr, 1)])) := by
  decide

/-- Claim C6 (amended): an ingestion call on a tracked key sets the new-key
flag exactly when its named key is absent from the mapping and keeps it
otherwise (in particular no update clears it, and the ETA side-effect
introduction does not set it, as the flag depends only on the named key);
and a successful `print_stats` call returns the tracker state unchanged, so
it never clears the flag. -/
theorem new_key_set_on_introduction_never_cleared :
    (∀ (t : StatsTracker) (name : Stats) (v : ℚ) (s : ℤ),
      name ∈ t.statsToTrack →
      (update_value t name v s).newKey =
        ((dictGet t.statsDict name).isNone || t.newKey)) ∧
    (∀ (t t' : StatsTracker) (name : Stats) (st et : ℚ) (step : Option ℤ)
      (bs : Option ℚ), name ∈ t.statsToTrack →
      update_time t name st et step bs = .ok t' →
      t'.newKey = ((dictGet t.statsDict name).isNone || t.newKey)) ∧
    (∀ (t : StatsTracker) (f : ℚ) (t' : StatsTracker)
      (row : Option (ℤ × ℚ × List (Stats × ℚ))),
      print_stats t f = .ok (t', row) → t' = t) := by
  refine ⟨?_, ?_, ?_⟩
  · intro t name v s htr
    unfold update_value
    rw [if_pos htr]
  · intro t t' name st et step bs htr h
    rcases update_time_ok_inv t t' name st et step bs h with
      ⟨hnt, _⟩ | ⟨_, _, _, _, _, hnew, _⟩
    · exact absurd htr hnt
    · exact hnew
  · intro t f t' row h
    exact print_stats_preserves_state t f t' row h

theorem new_key_set_never_cleared_witness :
    Stats.currTestPsnr ∈ W6.statsToTrack ∧
    update_value W6 Stats.currTestPsnr 1 2 = W6' ∧
    (update_value W6 Stats.currTestPsnr 1 2).newKey =
      ((dictGet W6.statsDict Stats.currTestPsnr).isNone || W6.newKey) ∧
    (update_value W6 Stats.currTestPsnr 1 2).newKey = true ∧
    update_time W6 Stats.currTestPsnr 0 1 (some 1) none = .ok W6t' ∧
    W6t'.newKey =
      ((dictGet W6.statsDict Stats.currTestPsnr).isNone || W6.newKey) ∧
    print_stats X6 0 = .ok (X6, some (1, 0, [(Stats.currTestPsnr, 1)])) ∧
    X6 = X6 :=
  ⟨by decide, by decide,
    new_key_set_on_introduction_never_cleared.1 W6 Stats.currTestPsnr 1 2
      (by decide),
    by decide, by decide,
    new_key_set_on_introduction_never_cleared.2.1 W6 W6t' Stats.currTestPsnr
      0 1 (some 1) none (by decide) (by decide),
    by decide,
    new_key_set_on_introduction_never_cleared.2.2 X6 0 X6
      (some (1, 0, [(Stats.currTestPsnr, 1)])) (by decide)⟩

/-- Claim C7 counterexample: two ingestion calls on a tracked key with steps
5 then 3: the stored step counter decreases from 5 to 3, so it is not
monotonically non-decreasing (it does equal the most recently supplied
step). -/
theorem step_counter_decreases_counterexample :
    (update_value X7 Stats.currTestPsnr 1 5).step = some 5 ∧
    (update_value (update_value X7 Stats.currTestPsnr 1 5)
      Stats.currTestPsnr 1 3).step = some 3 ∧
    (3 : ℤ) < 5 := by decide

/-- Claim C7 (amended): after each ingestion call on a tracked key the step
counter equals exactly the step supplied by that (most recent) call; the
code enforces no monotonicity, so the counter is monotone only if the
supplied steps are. -/
theorem step_counter_last_write (t t' : StatsTracker) (name : Stats)
    (v : ℚ) (s : ℤ) (st et : ℚ) (step : Option ℤ) (bs : Option ℚ)
    (htrack : name ∈ t.statsToTrack) :
    (update_value t name v s).step = some s ∧
    (update_time t name st et step bs = .ok t' → t'.step = step) := by
  constructor
  · unfold update_value
    rw [if_pos htrack]
  · intro h
    rcases update_time_ok_inv t t' name st et step bs h with
      ⟨hnt, _⟩ | ⟨_, _, _, _, hstep, _⟩
    · exact absurd htrack hnt
    · exact hstep

theorem step_counter_last_write_witness :
    Stats.currTestPsnr ∈ X7.statsToTrack ∧
    update_time X7 Stats.currTestPsnr 0 1 (some 4) none = .ok W7' ∧
    (update_value X7 Stats.currTestPsnr 1 5).step = some 5 ∧
    W7'.step = some 4 :=
  ⟨by decide, by decide,
    (step_counter_last_write X7 W7' Stats.currTestPsnr 1 5 0 1 (some 4) none
      (by decide)).1,
    (step_counter_last_write X7 W7' Stats.currTestPsnr 1 5 0 1 (some 4) none
      (by decide)).2 (by decide)⟩
